import Mathlib

/-
  Verification development for the `doyoucompute` runnable-documentation library.

  The Go sources are shallowly embedded: pure functions become Lean functions,
  the document tree becomes an inductive type, fallible operations return
  `Except`/`Option`, and the task runner is modelled up to the point where it
  would start an external process.  File references in comments point into the
  repository (security.go, structure.go, render.go, executor.go, service code).
-/

namespace DoYouCompute

/-! ## Go standard-library helpers used by the sources -/

/-- Characters treated as space by Go's `unicode.IsSpace` for the Latin-1 range
(ASCII whitespace plus NEL and NBSP); the sources only ever trim command words,
so the exotic Unicode space classes are not needed. -/
def goIsSpace (c : Char) : Bool :=
  c = ' ' ∨ c = '\t' ∨ c = '\n' ∨ c = Char.ofNat 11 ∨ c = Char.ofNat 12 ∨
    c = '\r' ∨ c = Char.ofNat 0x85 ∨ c = Char.ofNat 0xA0

/-- Go `strings.TrimSpace`: drop leading and trailing whitespace. -/
def goTrimSpace (s : String) : String :=
  String.mk (((s.toList.dropWhile goIsSpace).reverse.dropWhile goIsSpace).reverse)

/-- Go `strings.Join(elems, sep)`. -/
def goJoin (elems : List String) (sep : String) : String :=
  String.intercalate sep elems

/-- Whether `sub` occurs as a contiguous run inside the character list. -/
def containsSub (sub : List Char) : List Char → Bool
  | [] => List.isPrefixOf sub []
  | c :: rest => List.isPrefixOf sub (c :: rest) || containsSub sub rest

/-- Go `strings.Contains(s, substr)`. -/
def goContains (s substr : String) : Bool :=
  containsSub substr.toList s.toList

/-- Go `strings.Repeat(s, count)` (for the non-negative counts the renderer uses). -/
def repeatStr (s : String) (count : Nat) : String :=
  String.join (List.replicate count s)

/-- Go `filepath.Base` on a Unix path: strip trailing slashes, then keep the
last path element; empty input gives ".", an all-slash input gives "/". -/
def filepathBase (path : String) : String :=
  if path = "" then "."
  else
    let stripped := (path.toList.reverse.dropWhile (· = '/')).reverse
    if stripped = [] then "/"
    else String.mk ((stripped.reverse.takeWhile (· ≠ '/')).reverse)

/-! ## Context tracking (render.go, MARK: Tracking) -/

/-- render.go `SectionInfo`: a section name and its 1-based nesting level. -/
structure SectionInfo where
  name : String
  level : Nat
deriving Repr, DecidableEq

/-- render.go `ContextPath`: the stack of section info pushed during traversal. -/
abbrev ContextPath := List SectionInfo

/-- `ContextPath.Push`: append the name with level computed from current depth. -/
def ContextPath.push (c : ContextPath) (name : String) : ContextPath :=
  c ++ [⟨name, c.length + 1⟩]

/-- `ContextPath.Current`: the most recently pushed info, zero value if empty. -/
def ContextPath.current (c : ContextPath) : SectionInfo :=
  c.getLast?.getD ⟨"", 0⟩

/-- `ContextPath.CurrentLevel`: -1 on the empty path, else the current level. -/
def ContextPath.currentLevel (c : ContextPath) : Int :=
  if c.isEmpty then -1 else ((ContextPath.current c).level : Int)

/-! ## Execution configuration and command plans -/

/-- execution_config.go `ExecutionConfig`; the timeout is carried but the
embedding never runs real processes, so only its sign could matter. -/
structure ExecutionConfig where
  timeout : Int
  allowedShells : List String
  allowedCommands : List String
  blockDangerousCommands : Bool
deriving Repr, DecidableEq

/-- render.go `CommandPlan`: one executable command with its origin context. -/
structure CommandPlan where
  shell : String
  args : List String
  context : SectionInfo
  environment : List String
deriving Repr, DecidableEq

/-! ## Security validation (security.go) -/

/-- The distinct rejections of security.go, with the data each error message
carries (`%w`-wrapped sentinel plus the offending value / allowed set). -/
inductive ValidationError where
  | emptyArguments
  | emptyCommand
  | commandNotAllowed (baseCommand : String) (allowed : List String)
  | dangerousCommand (command : String)
  | dangerousPattern (pattern : String)
  | shellNotAllowed (shell : String) (allowed : List String)
deriving Repr, DecidableEq

/-- security.go `dangerousCommands` denylist, verbatim. -/
def dangerousCommands : List String :=
  ["format", "fdisk", "mkfs",
   "shutdown", "reboot", "halt",
   "sudo", "su",
   "iptables", "ufw", "firewall-cmd",
   "crontab", "at", "batch", "atq", "atrm",
   "systemctl", "service", "launchctl",
   "dd"]

/-- security.go `dangerousPatterns` substring denylist, verbatim. -/
def dangerousPatterns : List String :=
  ["rm -rf /", "rm -fr /",
   "rm -rf /*", "rm -fr /*",
   "> /dev/sd", "> /dev/hd", "> /dev/nvme",
   "dd of=/dev/",
   ":()\x7b :|:& \x7d;:",
   "chmod 777 /", "chmod -R 777 /"]

/-- security.go `validatePlanArgs`: empty args, blank command, allow-list,
dangerous command, dangerous pattern — in that order, first failure wins. -/
def validatePlanArgs (plan : CommandPlan) (config : ExecutionConfig) : Option ValidationError :=
  match plan.args with
  | [] => some .emptyArguments
  | a0 :: _ =>
    if goTrimSpace a0 = "" then some .emptyCommand
    else
      let baseCommand := filepathBase a0
      -- the Go loop sets `allowed` iff some entry equals the base name
      if 0 < config.allowedCommands.length ∧ baseCommand ∉ config.allowedCommands then
        some (.commandNotAllowed baseCommand config.allowedCommands)
      else if config.blockDangerousCommands = true then
        match dangerousCommands.find? (fun dangerous => baseCommand == dangerous) with
        | some dangerous => some (.dangerousCommand dangerous)
        | none =>
          let fullCommand := goJoin plan.args " "
          match dangerousPatterns.find? (fun pattern => goContains fullCommand pattern) with
          | some pattern => some (.dangerousPattern pattern)
          | none => none
      else none

/-- security.go `validateShell`: empty allow-list means unrestricted; the Go
loop returns nil on the first allow-list entry equal to the shell. -/
def validateShell (shell : String) (config : ExecutionConfig) : Option ValidationError :=
  if config.allowedShells.length = 0 then none
  else if shell ∈ config.allowedShells then none
  else some (.shellNotAllowed shell config.allowedShells)

/-- security.go `ValidateCommandPlan`: args checks then shell check. -/
def ValidateCommandPlan (plan : CommandPlan) (config : ExecutionConfig) : Option ValidationError :=
  match validatePlanArgs plan config with
  | some err => some err
  | none => validateShell plan.shell config

/-! ### The six checks of the spec, stated independently (for claim C1) -/

/-- Spec check 1: the plan has at least one argument. -/
def checkEmptyArgs (plan : CommandPlan) : Option ValidationError :=
  match plan.args with
  | [] => some .emptyArguments
  | _ :: _ => none

/-- Spec check 2: the first argument is non-blank. -/
def checkBlankCommand (plan : CommandPlan) : Option ValidationError :=
  match plan.args with
  | [] => none
  | a0 :: _ => if goTrimSpace a0 = "" then some .emptyCommand else none

/-- Spec check 3: base name membership in a non-empty command allow-list. -/
def checkAllowedCommands (plan : CommandPlan) (config : ExecutionConfig) : Option ValidationError :=
  match plan.args with
  | [] => none
  | a0 :: _ =>
    if 0 < config.allowedCommands.length ∧ filepathBase a0 ∉ config.allowedCommands then
      some (.commandNotAllowed (filepathBase a0) config.allowedCommands)
    else none

/-- Spec check 4: base name against the dangerous-command denylist. -/
def checkDangerousCommand (plan : CommandPlan) (config : ExecutionConfig) : Option ValidationError :=
  match plan.args with
  | [] => none
  | a0 :: _ =>
    if config.blockDangerousCommands = true then
      (dangerousCommands.find? (fun dangerous => filepathBase a0 == dangerous)).map
        ValidationError.dangerousCommand
    else none

/-- Spec check 5: joined arguments against the dangerous-pattern denylist. -/
def checkDangerousPattern (plan : CommandPlan) (config : ExecutionConfig) : Option ValidationError :=
  if config.blockDangerousCommands = true then
    (dangerousPatterns.find? (fun pattern => goContains (goJoin plan.args " ") pattern)).map
      ValidationError.dangerousPattern
  else none

/-- Spec check 6: shell membership in a non-empty shell allow-list. -/
def checkShell (plan : CommandPlan) (config : ExecutionConfig) : Option ValidationError :=
  if 0 < config.allowedShells.length ∧ plan.shell ∉ config.allowedShells then
    some (.shellNotAllowed plan.shell config.allowedShells)
  else none

/-- First failing check of a sequence of short-circuiting checks. -/
def firstSome : List (Option ValidationError) → Option ValidationError
  | [] => none
  | some err :: _ => some err
  | none :: rest => firstSome rest

theorem firstSome_eq_none_iff (l : List (Option ValidationError)) :
    firstSome l = none ↔ ∀ o ∈ l, o = none := by
  induction l with
  | nil => simp [firstSome]
  | cons o rest ih =>
    cases o with
    | none => simpa [firstSome] using ih
    | some e => simp [firstSome]

/-! ## Table (structure.go, MARK: Table) -/

/-- structure.go `Table` (rows are their `Values` strings). -/
structure Table where
  headers : List String
  items : List (List String)
deriving Repr, DecidableEq

/-- structure.go `Table.AddRow`: the returned pair is (error, table after the
call), making the no-mutation-on-error behaviour explicit. -/
def Table.addRow (t : Table) (row : List String) : Option String × Table :=
  if row.length > t.headers.length then
    (some "Row length exceeds number of headers", t)
  else
    (none, { t with items := t.items ++ [row] })

/-! ## The document tree (content.go, structure.go)

The renderers dispatch on the node-kind tag and reach children only through
the `Structurer` interface (`Identifier`/`Children`), so the tree is a single
inductive.  A `remote` node carries the outcome of draining its reader, the
one fallible materialization.  List children are nodes (the `Children()`
view); the authoring API below only ever inserts `text` items, matching the
Go `List.Items []Text` field. -/

inductive ListTypeE where
  | bullet
  | numbered
deriving Repr, DecidableEq

/-- structure.go `ListTypeE.Prefix`: "-" for bullets, "1." for numbered. -/
def ListTypeE.prefixStr : ListTypeE → String
  | .bullet => "-"
  | .numbered => "1."

inductive Node where
  | document (name : String) (frontmatter : Option (List (String × String))) (content : List Node)
  | sectionNode (name : String) (content : List Node)
  | paragraph (items : List Node)
  | listNode (typeOfList : ListTypeE) (items : List Node)
  | table (headers : List String) (items : List (List String))
  | tableRow (values : List String)
  | header (content : String)
  | text (s : String)
  | code (s : String)
  | link (textContent : String) (url : String)
  | codeBlock (blockType : String) (cmd : List String)
  | blockQuote (s : String)
  | executable (shell : String) (cmd : List String) (environment : List String)
  | remote (source : Except String String)
  | comment (s : String)

/-- structure.go `Frontmatter.Data` is a possibly-nil Go map; `none` models a
nil map, `some entries` a non-nil map with those pairs. -/
abbrev FrontmatterData := Option (List (String × String))

/-- structure.go `Document.HasFrontmatter`, kept with the source's branch
structure: a non-nil map answers true immediately; the `Empty` test below it
is unreachable. -/
def hasFrontmatterData (frontmatter : FrontmatterData) : Bool :=
  if frontmatter.isSome then true
  else if (frontmatter.getD []).length ≠ 0 then true
  else false

/-! ## Markdown renderer (render.go, MARK: Markdown) -/

namespace Markdown

/-- `Markdown.writeHeader`: `strings.Repeat("#", level)` plus name and blank
line; the render paths below only reach it with positive levels. -/
def writeHeader (content : String) (level : Int) : String :=
  repeatStr "#" level.toNat ++ " " ++ content ++ "\n\n"

/-- Stand-in for `yaml.Marshal` on the flat string maps the claims need: a
nil map marshals to "null\n", an empty map to "{}\n", else one `k: v` line
per entry. -/
def yamlMarshal (data : FrontmatterData) : String :=
  match data with
  | none => "null\n"
  | some [] => "\x7b\x7d\n"
  | some entries => String.join (entries.map (fun kv => kv.1 ++ ": " ++ kv.2 ++ "\n"))

/-- `Markdown.renderFrontmatter`: the marshalled data between `---` fences. -/
def renderFrontmatter (data : FrontmatterData) : String :=
  "---\n" ++ yamlMarshal data ++ "\n" ++ "---\n\n"

/-- The header-and-separator prefix written by `Markdown.renderTable`. -/
def tableHeaderBlock (headers : List String) : String :=
  "| " ++ goJoin headers " | " ++ " |" ++ "\n" ++
    "| " ++ goJoin (List.replicate headers.length "----") " | " ++ " |" ++ "\n"

/-- `Markdown.renderBlockofCode`: a fenced code block tagged with a hint. -/
def renderBlockofCode (typeHint : String) (content : String) : String :=
  "\x60\x60\x60" ++ typeHint ++ "\n" ++ content ++ "\n" ++ "\x60\x60\x60"

/-- `Markdown.renderTableRow` on a row's materialized `Items` metadata. -/
def renderTableRowStr (values : List String) : String :=
  "| " ++ goJoin values " | " ++ " |"

/-- `Markdown.renderContent`: materialize a content leaf and format it by
kind.  Metadata lookups are inlined since every producer stores the fields the
consumer reads; `remote` is the single materialization that can fail. -/
def renderContent : Node → ContextPath → Except String String
  | .header content, contextPath => .ok (writeHeader content (ContextPath.currentLevel contextPath))
  | .link textContent url, _ => .ok ("[" ++ textContent ++ "](" ++ url ++ ")")
  | .text s, _ => .ok s
  | .code s, _ => .ok ("\x60" ++ s ++ "\x60")
  | .codeBlock blockType cmd, _ => .ok (renderBlockofCode blockType (goJoin cmd " "))
  | .blockQuote s, _ => .ok ("> " ++ s)
  | .executable shell cmd _, _ => .ok (renderBlockofCode shell (goJoin cmd " "))
  | .tableRow values, _ => .ok (renderTableRowStr values)
  | .remote source, _ =>
    match source with
    | .error err => .error err
    | .ok content => .ok content
  | .comment s, _ => .ok ("<!-- " ++ s ++ " -->")
  | _, _ => .error "unknown content node type"

mutual

/-- `Markdown.renderChildren`: render each child under the same context,
stopping at the first error. -/
def renderChildren : List Node → ContextPath → Except String (List String)
  | [], _ => .ok []
  | leaf :: rest, contextPath => do
    let leafContent ← renderWithTracking leaf contextPath
    let restContent ← renderChildren rest contextPath
    .ok (leafContent :: restContent)

/-- `Markdown.renderWithTracking` with the structure-node dispatch of
`renderStructureNode` inlined per constructor; content leaves go to
`renderContent`. -/
def renderWithTracking : Node → ContextPath → Except String String
  | .document name frontmatter content, contextPath => do
    let ctxPath := ContextPath.push contextPath name
    let childContent ← renderChildren content ctxPath
    let level :=
      if ContextPath.currentLevel ctxPath > 5 then 5 else ContextPath.currentLevel ctxPath
    let fmPart := if hasFrontmatterData frontmatter then renderFrontmatter frontmatter else ""
    .ok (fmPart ++ writeHeader name level ++ goJoin childContent "\n\n" ++ "\n")
  | .sectionNode name content, contextPath => do
    let ctxPath := ContextPath.push contextPath name
    let childContent ← renderChildren content ctxPath
    let level :=
      if ContextPath.currentLevel ctxPath > 5 then 5 else ContextPath.currentLevel ctxPath
    .ok (writeHeader name level ++ goJoin childContent "\n\n")
  | .paragraph items, contextPath => do
    let childContent ← renderChildren items contextPath
    .ok (goJoin childContent " ")
  | .listNode typeOfList items, contextPath => do
    let childContent ← renderChildren items contextPath
    .ok (String.join (childContent.map
      (fun item => ListTypeE.prefixStr typeOfList ++ " " ++ item ++ "\n")))
  | .table headers rows, _ =>
    -- The source renders each row through `renderChildren`/`renderContent`;
    -- a `tableRow` leaf always materializes, so that loop is exactly a map.
    .ok (tableHeaderBlock headers ++ goJoin (rows.map renderTableRowStr) "\n")
  | node, contextPath => renderContent node contextPath

end

/-- `Markdown.Render`: entry point with an empty context path. -/
def render (node : Node) : Except String String :=
  renderWithTracking node []

end Markdown

/-! ## Execution planner (render.go, MARK: Executor) -/

namespace Executioner

mutual

/-- `Executioner.renderChildren`: concatenate the plans of each child,
propagating errors. -/
def renderChildren : List Node → ContextPath → Except String (List CommandPlan)
  | [], _ => .ok []
  | leaf :: rest, contextPath => do
    let cmds ← renderWithTracking leaf contextPath
    let restCmds ← renderChildren rest contextPath
    .ok (cmds ++ restCmds)

/-- `Executioner.renderWithTracking`: descend only document/section/list
(pushing the node identifier — the empty string for lists), collect a plan
per executable, and ignore every other kind.  On a child error the source
returns `[]CommandPlan{}, nil`, discarding the error (render.go line 522). -/
def renderWithTracking : Node → ContextPath → Except String (List CommandPlan)
  | .document name _ content, contextPath =>
    match renderChildren content (ContextPath.push contextPath name) with
    | .error _ => .ok []
    | .ok cmds => .ok cmds
  | .sectionNode name content, contextPath =>
    match renderChildren content (ContextPath.push contextPath name) with
    | .error _ => .ok []
    | .ok cmds => .ok cmds
  | .listNode _ items, contextPath =>
    match renderChildren items (ContextPath.push contextPath "") with
    | .error _ => .ok []
    | .ok cmds => .ok cmds
  | .executable shell cmd environment, contextPath =>
    .ok [⟨shell, cmd, ContextPath.current contextPath, environment⟩]
  | _, _ => .ok []

end

/-- `Executioner.Render`: entry point with an empty context path. -/
def render (node : Node) : Except String (List CommandPlan) :=
  match renderWithTracking node [] with
  | .error err => .error err
  | .ok cmds => .ok cmds

end Executioner

/-! ### Specification-level plan collection (for claim C2)

Written from the spec's words: depth-first, child order preserved, descending
only documents, sections and lists, one plan per executable carrying the
context current at the moment of encounter. -/

mutual

def plansSpec : Node → ContextPath → List CommandPlan
  | .document name _ content, contextPath => plansSpecList content (ContextPath.push contextPath name)
  | .sectionNode name content, contextPath => plansSpecList content (ContextPath.push contextPath name)
  | .listNode _ items, contextPath => plansSpecList items (ContextPath.push contextPath "")
  | .executable shell cmd environment, contextPath =>
    [⟨shell, cmd, ContextPath.current contextPath, environment⟩]
  | _, _ => []

def plansSpecList : List Node → ContextPath → List CommandPlan
  | [], _ => []
  | c :: rest, contextPath => plansSpec c contextPath ++ plansSpecList rest contextPath

end

/-! ## Task runner (executor.go) -/

/-- The failure causes `TaskRunner.Run` can report before a process starts. -/
inductive RunError where
  | securityValidation (err : ValidationError)
  | environmentValidation (missing : List String)
  | noCommand
deriving Repr, DecidableEq

/-- What `TaskRunner.Run` does up to process start: either a Failed
`TaskResult` (section name, joined command, cause) or the invocation of the
external process with the argv the source builds. -/
inductive RunOutcome where
  | failed (sectionName : String) (command : String) (err : RunError)
  | invoke (sectionName : String) (command : String) (argv : List String)
deriving Repr, DecidableEq

/-- executor.go `validateEnvironment` against an environment lookup `env`
(Go `os.Getenv`; unset names answer "").  The returned list is every missing
name, which the source formats into one error message. -/
def validateEnvironment (env : String → String) (required : List String) : Option (List String) :=
  let missing := required.filter (fun envVar => env envVar == "")
  if 0 < missing.length then some missing else none

namespace TaskRunner

/-- executor.go `TaskRunner.Run`, modelled up to the point the external
process would start: security validation, then environment validation, then
the argument-list guard, then command construction (`shell -c` for sh/bash,
direct argv otherwise).  Timeout handling and the process itself are outside
the embedding. -/
def run (config : ExecutionConfig) (env : String → String) (plan : CommandPlan) : RunOutcome :=
  let sectionName := plan.context.name
  let command := goJoin plan.args " "
  match ValidateCommandPlan plan config with
  | some err => .failed sectionName command (.securityValidation err)
  | none =>
    match validateEnvironment env plan.environment with
    | some missing => .failed sectionName command (.environmentValidation missing)
    | none =>
      match plan.args with
      | [] => .failed sectionName command .noCommand
      | a0 :: rest =>
        if plan.shell = "sh" ∨ plan.shell = "bash" then
          .invoke sectionName command [plan.shell, "-c", goJoin plan.args " "]
        else
          .invoke sectionName command (a0 :: rest)

end TaskRunner

/-! ## Authoring containers (structure.go) -/

/-- structure.go `Paragraph`. -/
structure Paragraph where
  items : List Node

def Paragraph.toNode (p : Paragraph) : Node := .paragraph p.items

/-- structure.go `NewParagraph`. -/
def NewParagraph : Paragraph := ⟨[]⟩

/-- `Paragraph.Text`. -/
def Paragraph.text (p : Paragraph) (val : String) : Paragraph := ⟨p.items ++ [Node.text val]⟩

/-- `Paragraph.Code`. -/
def Paragraph.code (p : Paragraph) (val : String) : Paragraph := ⟨p.items ++ [Node.code val]⟩

/-- `Paragraph.Link`. -/
def Paragraph.link (p : Paragraph) (textContent url : String) : Paragraph :=
  ⟨p.items ++ [Node.link textContent url]⟩

/-- structure.go `List` (named `GoList` because `List` is taken in Lean);
its items are `Text` values. -/
structure GoList where
  typeOfList : ListTypeE
  items : List String

def GoList.toNode (l : GoList) : Node := .listNode l.typeOfList (l.items.map Node.text)

/-- `List.Push`: prepend. -/
def GoList.push (l : GoList) (val : String) : GoList := ⟨l.typeOfList, val :: l.items⟩

/-- `List.Append`. -/
def GoList.append (l : GoList) (val : String) : GoList := ⟨l.typeOfList, l.items ++ [val]⟩

def Table.toNode (t : Table) : Node := .table t.headers t.items

/-- The `Text` items of a list node's children (inverse of `GoList.toNode`
on trees built by the authoring API, where list items are always texts). -/
def textItems (items : List Node) : List String :=
  items.filterMap (fun n => match n with | .text s => some s | _ => none)

/-- structure.go `Section` (named `Sect` because `section` is a Lean keyword). -/
structure Sect where
  name : String
  content : List Node

def Sect.toNode (s : Sect) : Node := .sectionNode s.name s.content

/-- structure.go `NewSection`. -/
def NewSection (name : String) : Sect := ⟨name, []⟩

/-- `Section.AddIntro`: prepend an already-built paragraph. -/
def Sect.addIntro (s : Sect) (content : Paragraph) : Sect :=
  ⟨s.name, content.toNode :: s.content⟩

/-- `Section.WriteIntro`: prepend an empty paragraph and hand back its slot
(the Go code returns a live pointer; the slot index stands for it). -/
def Sect.writeIntro (s : Sect) : Sect × Nat :=
  (⟨s.name, NewParagraph.toNode :: s.content⟩, 0)

/-- `Section.AddSection`. -/
def Sect.addSection (s : Sect) (sub : Sect) : Sect :=
  ⟨s.name, s.content ++ [sub.toNode]⟩

/-- `Section.CreateSection`. -/
def Sect.createSection (s : Sect) (name : String) : Sect × Nat :=
  (⟨s.name, s.content ++ [(NewSection name).toNode]⟩, s.content.length)

/-- `Section.AddParagraph`. -/
def Sect.addParagraph (s : Sect) (paragraph : Paragraph) : Sect :=
  ⟨s.name, s.content ++ [paragraph.toNode]⟩

/-- `Section.WriteParagraph`. -/
def Sect.writeParagraph (s : Sect) : Sect × Nat :=
  (⟨s.name, s.content ++ [NewParagraph.toNode]⟩, s.content.length)

/-- `Section.AddTable`. -/
def Sect.addTable (s : Sect) (headers : List String) (rows : List (List String)) : Sect :=
  ⟨s.name, s.content ++ [Node.table headers rows]⟩

/-- `Section.CreateTable`. -/
def Sect.createTable (s : Sect) (headers : List String) : Sect × Nat :=
  (⟨s.name, s.content ++ [Node.table headers []]⟩, s.content.length)

/-- `Section.AddList`. -/
def Sect.addList (s : Sect) (listType : ListTypeE) (items : List String) : Sect :=
  ⟨s.name, s.content ++ [Node.listNode listType (items.map Node.text)]⟩

/-- `Section.CreateList`. -/
def Sect.createList (s : Sect) (listType : ListTypeE) : Sect × Nat :=
  (⟨s.name, s.content ++ [Node.listNode listType []]⟩, s.content.length)

/-- Mutation through a live builder handle: the Go `Create*`/`Write*` methods
return a pointer into the child slice, so later mutations rewrite the tree
slot the handle points at. -/
def Sect.mutateAt (s : Sect) (idx : Nat) (f : Node → Node) : Sect :=
  ⟨s.name, s.content.set idx (f (s.content.getD idx (Node.text "")))⟩

/-- structure.go `Document`. -/
structure Document where
  name : String
  frontmatter : FrontmatterData
  content : List Node

def Document.toNode (d : Document) : Node := .document d.name d.frontmatter d.content

/-- structure.go `NewDocument`: empty content, nil front-matter map. -/
def NewDocument (name : String) : Document := ⟨name, none, []⟩

/-- `Document.AddFrontmatter`. -/
def Document.addFrontmatter (d : Document) (f : FrontmatterData) : Document :=
  ⟨d.name, f, d.content⟩

/-- `Document.HasFrontmatter`. -/
def Document.hasFrontmatter (d : Document) : Bool := hasFrontmatterData d.frontmatter

/-- `Document.AddSection`. -/
def Document.addSection (d : Document) (s : Sect) : Document :=
  ⟨d.name, d.frontmatter, d.content ++ [s.toNode]⟩

/-- `Document.CreateSection`. -/
def Document.createSection (d : Document) (name : String) : Document × Nat :=
  (⟨d.name, d.frontmatter, d.content ++ [(NewSection name).toNode]⟩, d.content.length)

/-- `Document.AddIntro`. -/
def Document.addIntro (d : Document) (content : Paragraph) : Document :=
  ⟨d.name, d.frontmatter, content.toNode :: d.content⟩

/-- `Document.WriteIntro`. -/
def Document.writeIntro (d : Document) : Document × Nat :=
  (⟨d.name, d.frontmatter, NewParagraph.toNode :: d.content⟩, 0)

/-- Builder-handle mutation on a document's child slot. -/
def Document.mutateAt (d : Document) (idx : Nat) (f : Node → Node) : Document :=
  ⟨d.name, d.frontmatter, d.content.set idx (f (d.content.getD idx (Node.text "")))⟩

/-- Lift a `Section`-handle mutation to the tree slot holding the section. -/
def liftSect (f : Sect → Sect) : Node → Node
  | .sectionNode name content => (f ⟨name, content⟩).toNode
  | n => n

/-- Lift a `Paragraph`-handle mutation to the tree slot holding it. -/
def liftParagraph (f : Paragraph → Paragraph) : Node → Node
  | .paragraph items => (f ⟨items⟩).toNode
  | n => n

/-- Lift a `Table`-handle mutation to the tree slot holding it. -/
def liftTable (f : Table → Table) : Node → Node
  | .table headers items => (f ⟨headers, items⟩).toNode
  | n => n

/-- Lift a `List`-handle mutation to the tree slot holding it. -/
def liftList (f : GoList → GoList) : Node → Node
  | .listNode typeOfList items => (f ⟨typeOfList, textItems items⟩).toNode
  | n => n

/-! ## Orchestration service (`Service.PlanScriptExecution`) -/

namespace Service

/-- `ALL_SECTIONS`: the blank sentinel meaning "all sections". -/
def ALL_SECTIONS : String := ""

/-- `Service.PlanScriptExecution` with the execution renderer of render.go:
plan the whole document, then (for a non-blank section name) keep only plans
whose context name matches, failing when none do. -/
def planScriptExecution (document : Document) (sectionName : String) :
    Except String (List CommandPlan) :=
  match Executioner.render document.toNode with
  | .error err => .error err
  | .ok executionPlan =>
    if sectionName = "" then .ok executionPlan
    else
      let commands := executionPlan.filter
        (fun commandPlan => commandPlan.context.name == sectionName)
      if commands.length = 0 then
        .error ("no executable blocks found for section " ++ sectionName)
      else .ok commands

end Service

/-! ## Claim C4: Table.AddRow -/

/-- C4: AddRow with strictly more values than headers fails with the
row-too-long error and leaves the row sequence unchanged; with at most as
many values it appends the row and reports no error. -/
theorem add_row_too_long_no_mutation (t : Table) (row : List String) :
    (row.length > t.headers.length →
      t.addRow row = (some "Row length exceeds number of headers", t)) ∧
    (row.length ≤ t.headers.length →
      t.addRow row = (none, ⟨t.headers, t.items ++ [row]⟩)) := by
  constructor
  · intro h
    simp [Table.addRow, h]
  · intro h
    have hnot : ¬ (row.length > t.headers.length) := by omega
    simp [Table.addRow, hnot]

/-- Witness for C4 at a one-header table: a two-value row is rejected without
mutation, a one-value row is appended. -/
theorem add_row_witness :
    (Table.addRow ⟨["h"], []⟩ ["x", "y"] =
      (some "Row length exceeds number of headers", ⟨["h"], []⟩)) ∧
    (Table.addRow ⟨["h"], []⟩ ["x"] = (none, ⟨["h"], [["x"]]⟩)) :=
  ⟨(add_row_too_long_no_mutation ⟨["h"], []⟩ ["x", "y"]).1 (by decide),
   (add_row_too_long_no_mutation ⟨["h"], []⟩ ["x"]).2 (by decide)⟩

/-! ## Claim C8: front-matter block emission -/

/-- C8 (code bug evidence): a document whose front-matter map is non-nil but
holds zero key/value pairs still renders with a front-matter block —
`HasFrontmatter` answers true for any non-nil map — contradicting the spec's
"only if front-matter is non-empty". -/
theorem empty_frontmatter_map_still_emits_block :
    Markdown.render (Node.document "D" (some []) []) =
      Except.ok ("---\n\x7b\x7d\n\n---\n\n# D\n\n\n") ∧
    hasFrontmatterData (some []) = true ∧
    (([] : List (String × String)).length = 0) := by
  refine ⟨by rfl, by rfl, rfl⟩

/-! ## Claim C6: sudo under BlockDangerousCommands -/

/-- C6 counterexample: with BlockDangerousCommands set but a non-empty
allow-list not containing sudo, the plan ["sudo"] is rejected by the earlier
allow-list check as CommandNotAllowed, not as DangerousCommandBlocked. -/
theorem sudo_allowlist_counterexample :
    ValidateCommandPlan ⟨"bash", ["sudo"], ⟨"", 0⟩, []⟩ ⟨0, [], ["echo"], true⟩ =
      some (ValidationError.commandNotAllowed "sudo" ["echo"]) ∧
    ValidateCommandPlan ⟨"bash", ["sudo"], ⟨"", 0⟩, []⟩ ⟨0, [], ["echo"], true⟩ ≠
      some (ValidationError.dangerousCommand "sudo") := by
  refine ⟨by rfl, by decide⟩

/-- C6 (amended): when BlockDangerousCommands is set and the command
allow-list does not intervene (it is empty or itself lists sudo), a plan
whose first argument is "sudo" is rejected as DangerousCommandBlocked
naming sudo. -/
theorem sudo_blocked_when_allowlist_permits (plan : CommandPlan) (config : ExecutionConfig)
    (hhead : plan.args.head? = some "sudo")
    (hblock : config.blockDangerousCommands = true)
    (hallow : config.allowedCommands = [] ∨ config.allowedCommands.contains "sudo" = true) :
    ValidateCommandPlan plan config = some (ValidationError.dangerousCommand "sudo") := by
  obtain ⟨rest, hargs⟩ : ∃ rest, plan.args = "sudo" :: rest := by
    cases h : plan.args with
    | nil => rw [h] at hhead; simp at hhead
    | cons a r =>
      rw [h] at hhead
      simp only [List.head?_cons, Option.some.injEq] at hhead
      exact ⟨r, by rw [hhead]⟩
  have hblank : ¬ (goTrimSpace "sudo" = "") := by decide
  have hfind : dangerousCommands.find? (fun dangerous => filepathBase "sudo" == dangerous) =
      some "sudo" := by rfl
  unfold ValidateCommandPlan validatePlanArgs
  have hbase : filepathBase "sudo" = "sudo" := by rfl
  rcases hallow with h | h
  · simp [hargs, hblank, h, hblock, hfind]
  · have hmem : "sudo" ∈ config.allowedCommands := by simpa using h
    have hfind2 : dangerousCommands.find? (fun dangerous => "sudo" == dangerous) = some "sudo" := by
      rfl
    simp [hargs, hblank, hblock, hbase, hmem, hfind2]

/-- Witness for the amended C6: a bare ["sudo", "apt"] plan under an
unrestricted allow-list with dangerous blocking on. -/
theorem sudo_blocked_witness :
    ValidateCommandPlan ⟨"bash", ["sudo", "apt"], ⟨"", 0⟩, []⟩ ⟨0, [], [], true⟩ =
      some (ValidationError.dangerousCommand "sudo") :=
  sudo_blocked_when_allowlist_permits ⟨"bash", ["sudo", "apt"], ⟨"", 0⟩, []⟩ ⟨0, [], [], true⟩
    (by rfl) (by rfl) (Or.inl rfl)

/-! ## Claim C5: environment validation in TaskRunner.Run -/

/-- C5 counterexample: a plan that fails security validation while also
declaring an unset required variable gets a security-tagged failure, not the
environment-validation tag the claim promises for every plan. -/
theorem env_error_tag_counterexample :
    TaskRunner.run ⟨0, [], [], false⟩ (fun _ => "") ⟨"bash", [], ⟨"S", 1⟩, ["API_KEY"]⟩ =
      RunOutcome.failed "S" "" (RunError.securityValidation ValidationError.emptyArguments) ∧
    TaskRunner.run ⟨0, [], [], false⟩ (fun _ => "") ⟨"bash", [], ⟨"S", 1⟩, ["API_KEY"]⟩ ≠
      RunOutcome.failed "S" "" (RunError.environmentValidation ["API_KEY"]) ∧
    (fun (_ : String) => "") "API_KEY" = "" := by
  refine ⟨by rfl, by decide, rfl⟩

/-- C5 (amended): for every plan that passes security validation, when any
required environment variable is unset the runner returns a Failed result
tagged environment-validation listing every missing name, and the external
process is never started (the outcome is `failed`, not `invoke`). -/
theorem env_validation_lists_all_missing (config : ExecutionConfig) (env : String → String)
    (plan : CommandPlan)
    (hsec : ValidateCommandPlan plan config = none)
    (hmiss : plan.environment.filter (fun envVar => env envVar == "") ≠ []) :
    TaskRunner.run config env plan =
      RunOutcome.failed plan.context.name (goJoin plan.args " ")
        (RunError.environmentValidation
          (plan.environment.filter (fun envVar => env envVar == ""))) ∧
    ∀ v ∈ plan.environment, env v = "" →
      v ∈ plan.environment.filter (fun envVar => env envVar == "") := by
  constructor
  · have hlen : 0 < (plan.environment.filter (fun envVar => env envVar == "")).length := by
      cases h : plan.environment.filter (fun envVar => env envVar == "") with
      | nil => exact absurd h hmiss
      | cons a l => simp [h]
    unfold TaskRunner.run
    rw [hsec]
    unfold validateEnvironment
    simp [hlen]
  · intro v hv hveq
    simp [List.mem_filter, hv, hveq]

/-- Witness for the amended C5: `API_KEY` required but unset under a fully
permissive config; the result is Failed and names `API_KEY`. -/
theorem env_validation_witness :
    TaskRunner.run ⟨0, [], [], false⟩ (fun _ => "") ⟨"bash", ["echo", "hi"], ⟨"S", 1⟩, ["API_KEY"]⟩ =
      RunOutcome.failed "S" "echo hi" (RunError.environmentValidation ["API_KEY"]) :=
  (env_validation_lists_all_missing ⟨0, [], [], false⟩ (fun _ => "")
    ⟨"bash", ["echo", "hi"], ⟨"S", 1⟩, ["API_KEY"]⟩ (by rfl) (by decide)).1

/-! ## Claim C1: the six ordered checks of ValidateCommandPlan -/

theorem firstSome_append_single (l : List (Option ValidationError)) (o : Option ValidationError) :
    firstSome (l ++ [o]) = match firstSome l with
      | some err => some err
      | none => o := by
  induction l with
  | nil => cases o <;> simp [firstSome]
  | cons head tail ih => cases head <;> simp [firstSome, ih]

theorem validateShell_eq_checkShell (plan : CommandPlan) (config : ExecutionConfig) :
    validateShell plan.shell config = checkShell plan config := by
  unfold validateShell checkShell
  rcases Nat.eq_zero_or_pos config.allowedShells.length with h | h
  · simp [h]
  · have hne : ¬ (config.allowedShells.length = 0) := by omega
    by_cases hc : plan.shell ∈ config.allowedShells
    · simp [hne, hc, h]
    · simp [hne, hc, h]

theorem validatePlanArgs_eq_first_five (plan : CommandPlan) (config : ExecutionConfig) :
    validatePlanArgs plan config =
      firstSome [checkEmptyArgs plan, checkBlankCommand plan, checkAllowedCommands plan config,
        checkDangerousCommand plan config, checkDangerousPattern plan config] := by
  unfold validatePlanArgs checkEmptyArgs checkBlankCommand checkAllowedCommands
    checkDangerousCommand checkDangerousPattern
  cases hargs : plan.args with
  | nil => simp [firstSome]
  | cons a0 rest =>
    by_cases hblank : goTrimSpace a0 = ""
    · simp [firstSome, hblank]
    · by_cases hallow : 0 < config.allowedCommands.length ∧
          filepathBase a0 ∉ config.allowedCommands
      · simp [firstSome, hblank, hallow]
      · by_cases hdang : config.blockDangerousCommands = true
        · cases hfind : dangerousCommands.find? (fun dangerous => filepathBase a0 == dangerous) with
          | some dangerous => simp [firstSome, hblank, hallow, hdang, hfind]
          | none =>
            cases hpat : dangerousPatterns.find?
                (fun pattern => goContains (goJoin (a0 :: rest) " ") pattern) with
            | some pattern => simp [firstSome, hblank, hallow, hdang, hfind, hpat]
            | none => simp [firstSome, hblank, hallow, hdang, hfind, hpat]
        · simp [firstSome, hblank, hallow, hdang]

/-- C1: ValidateCommandPlan equals the short-circuiting sequence of the six
spec checks in their stated order — empty arguments, blank command, command
allow-list, dangerous command, dangerous pattern, shell allow-list — and
returns no error exactly when every check passes. -/
theorem validate_command_plan_six_checks (plan : CommandPlan) (config : ExecutionConfig) :
    ValidateCommandPlan plan config =
      firstSome [checkEmptyArgs plan, checkBlankCommand plan, checkAllowedCommands plan config,
        checkDangerousCommand plan config, checkDangerousPattern plan config,
        checkShell plan config] ∧
    (ValidateCommandPlan plan config = none ↔
      checkEmptyArgs plan = none ∧ checkBlankCommand plan = none ∧
      checkAllowedCommands plan config = none ∧ checkDangerousCommand plan config = none ∧
      checkDangerousPattern plan config = none ∧ checkShell plan config = none) := by
  have hmain : ValidateCommandPlan plan config =
      firstSome [checkEmptyArgs plan, checkBlankCommand plan, checkAllowedCommands plan config,
        checkDangerousCommand plan config, checkDangerousPattern plan config,
        checkShell plan config] := by
    have hsplit : [checkEmptyArgs plan, checkBlankCommand plan,
        checkAllowedCommands plan config, checkDangerousCommand plan config,
        checkDangerousPattern plan config, checkShell plan config] =
        [checkEmptyArgs plan, checkBlankCommand plan, checkAllowedCommands plan config,
          checkDangerousCommand plan config, checkDangerousPattern plan config] ++
          [checkShell plan config] := rfl
    rw [hsplit, firstSome_append_single, ← validatePlanArgs_eq_first_five plan config]
    unfold ValidateCommandPlan
    cases validatePlanArgs plan config with
    | none => simp [validateShell_eq_checkShell plan config]
    | some err => simp
  refine ⟨hmain, ?_⟩
  rw [hmain, firstSome_eq_none_iff]
  simp

/-! ## Claim C2: the execution planner is exactly the depth-first collection -/

mutual

theorem execRenderWithTracking_eq : ∀ (n : Node) (ctx : ContextPath),
    Executioner.renderWithTracking n ctx = Except.ok (plansSpec n ctx)
  | .document name fm content, ctx => by
    simp [Executioner.renderWithTracking, plansSpec,
      execRenderChildren_eq content (ContextPath.push ctx name)]
  | .sectionNode name content, ctx => by
    simp [Executioner.renderWithTracking, plansSpec,
      execRenderChildren_eq content (ContextPath.push ctx name)]
  | .listNode t items, ctx => by
    simp [Executioner.renderWithTracking, plansSpec,
      execRenderChildren_eq items (ContextPath.push ctx "")]
  | .executable sh cmd env, ctx => by simp [Executioner.renderWithTracking, plansSpec]
  | .paragraph items, ctx => by simp [Executioner.renderWithTracking, plansSpec]
  | .table headers rows, ctx => by simp [Executioner.renderWithTracking, plansSpec]
  | .tableRow values, ctx => by simp [Executioner.renderWithTracking, plansSpec]
  | .header c, ctx => by simp [Executioner.renderWithTracking, plansSpec]
  | .text s, ctx => by simp [Executioner.renderWithTracking, plansSpec]
  | .code s, ctx => by simp [Executioner.renderWithTracking, plansSpec]
  | .link t u, ctx => by simp [Executioner.renderWithTracking, plansSpec]
  | .codeBlock b c, ctx => by simp [Executioner.renderWithTracking, plansSpec]
  | .blockQuote s, ctx => by simp [Executioner.renderWithTracking, plansSpec]
  | .remote src, ctx => by simp [Executioner.renderWithTracking, plansSpec]
  | .comment s, ctx => by simp [Executioner.renderWithTracking, plansSpec]

theorem execRenderChildren_eq : ∀ (l : List Node) (ctx : ContextPath),
    Executioner.renderChildren l ctx = Except.ok (plansSpecList l ctx)
  | [], ctx => by simp [Executioner.renderChildren, plansSpecList]
  | c :: rest, ctx => by
    simp [Executioner.renderChildren, plansSpecList, execRenderWithTracking_eq c ctx,
      execRenderChildren_eq rest ctx, Bind.bind, Except.bind]

end

theorem execRender_eq (n : Node) : Executioner.render n = Except.ok (plansSpec n []) := by
  unfold Executioner.render
  rw [execRenderWithTracking_eq n []]

/-- C2: the planner's traversal equals `plansSpec`, the depth-first
collection that descends only documents, sections and lists, emits one plan
per executable carrying its shell, arguments, environment and the context
current at the encounter, and preserves child order; likewise for the
`Render` entry point. -/
theorem execution_planner_depth_first_plans (n : Node) (ctx : ContextPath) :
    Executioner.renderWithTracking n ctx = Except.ok (plansSpec n ctx) ∧
    Executioner.render n = Except.ok (plansSpec n []) := by
  refine ⟨execRenderWithTracking_eq n ctx, ?_⟩
  unfold Executioner.render
  rw [execRenderWithTracking_eq n []]

/-! ## Claim C3: heading markers are min(depth, 5) '#' characters -/

theorem currentLevel_push (ctx : ContextPath) (name : String) :
    ContextPath.currentLevel (ContextPath.push ctx name) = (ctx.length + 1 : Int) := by
  unfold ContextPath.currentLevel ContextPath.push ContextPath.current
  simp [List.getLast?_concat]

theorem clamped_level_push (ctx : ContextPath) (name : String) :
    (if ContextPath.currentLevel (ContextPath.push ctx name) > 5 then 5
      else ContextPath.currentLevel (ContextPath.push ctx name)).toNat =
      min (ctx.length + 1) 5 := by
  rw [currentLevel_push]
  by_cases h : ((ctx.length : Int) + 1 > 5)
  · rw [if_pos h]; omega
  · rw [if_neg h]; omega

/-- C3: a section or document heading emitted at context depth `d = |ctx| + 1`
starts with exactly `min(d, 5)` '#' characters and a space (documents first
write their front-matter block when they have one); nesting beyond 5 keeps
producing level-5 markers. -/
theorem heading_marker_is_min_depth_five (ctx : ContextPath) (name : String)
    (children : List Node) (frontmatter : FrontmatterData) :
    (∀ out, Markdown.renderWithTracking (Node.sectionNode name children) ctx = Except.ok out →
      ∃ rest, out = repeatStr "#" (min (ctx.length + 1) 5) ++ " " ++ name ++ "\n\n" ++ rest) ∧
    (∀ out, Markdown.renderWithTracking (Node.document name frontmatter children) ctx =
        Except.ok out →
      ∃ rest, out =
        (if hasFrontmatterData frontmatter then Markdown.renderFrontmatter frontmatter else "") ++
          (repeatStr "#" (min (ctx.length + 1) 5) ++ " " ++ name ++ "\n\n" ++ rest)) := by
  constructor
  · intro out h
    simp only [Markdown.renderWithTracking] at h
    cases hc : Markdown.renderChildren children (ContextPath.push ctx name) with
    | error e => rw [hc] at h; simp [Bind.bind, Except.bind] at h
    | ok parts =>
      rw [hc] at h
      simp only [Bind.bind, Except.bind, Except.ok.injEq] at h
      refine ⟨goJoin parts "\n\n", ?_⟩
      rw [← h]
      unfold Markdown.writeHeader
      rw [clamped_level_push]
  · intro out h
    simp only [Markdown.renderWithTracking] at h
    cases hc : Markdown.renderChildren children (ContextPath.push ctx name) with
    | error e => rw [hc] at h; simp [Bind.bind, Except.bind] at h
    | ok parts =>
      rw [hc] at h
      simp only [Bind.bind, Except.bind, Except.ok.injEq] at h
      refine ⟨goJoin parts "\n\n" ++ "\n", ?_⟩
      rw [← h]
      unfold Markdown.writeHeader
      rw [clamped_level_push]
      simp only [String.append_assoc]

/-- Witness for C3: a top-level section renders with a single '#'. -/
theorem heading_marker_witness :
    ∃ rest, "# T\n\n" = repeatStr "#" (min (0 + 1) 5) ++ " " ++ "T" ++ "\n\n" ++ rest :=
  (heading_marker_is_min_depth_five [] "T" [] none).1 "# T\n\n" (by rfl)

/-! ## Claim C7: propagation of materialization failures -/

mutual

/-- Whether the tree holds a content node whose materialization fails (the
only fallible materialization is a remote whose source read errors). -/
def hasFailingMaterialization : Node → Bool
  | .document _ _ content => hasFailingList content
  | .sectionNode _ content => hasFailingList content
  | .paragraph items => hasFailingList items
  | .listNode _ items => hasFailingList items
  | .remote (.error _) => true
  | _ => false

def hasFailingList : List Node → Bool
  | [] => false
  | c :: rest => hasFailingMaterialization c || hasFailingList rest

end

mutual

theorem md_error_of_failing : ∀ (n : Node) (ctx : ContextPath),
    hasFailingMaterialization n = true →
    ∃ e, Markdown.renderWithTracking n ctx = Except.error e
  | .document name fm content, ctx => fun h => by
    obtain ⟨e, he⟩ := md_error_of_failingList content (ContextPath.push ctx name)
      (by simpa [hasFailingMaterialization] using h)
    exact ⟨e, by simp [Markdown.renderWithTracking, he, Bind.bind, Except.bind]⟩
  | .sectionNode name content, ctx => fun h => by
    obtain ⟨e, he⟩ := md_error_of_failingList content (ContextPath.push ctx name)
      (by simpa [hasFailingMaterialization] using h)
    exact ⟨e, by simp [Markdown.renderWithTracking, he, Bind.bind, Except.bind]⟩
  | .paragraph items, ctx => fun h => by
    obtain ⟨e, he⟩ := md_error_of_failingList items ctx
      (by simpa [hasFailingMaterialization] using h)
    exact ⟨e, by simp [Markdown.renderWithTracking, he, Bind.bind, Except.bind]⟩
  | .listNode t items, ctx => fun h => by
    obtain ⟨e, he⟩ := md_error_of_failingList items ctx
      (by simpa [hasFailingMaterialization] using h)
    exact ⟨e, by simp [Markdown.renderWithTracking, he, Bind.bind, Except.bind]⟩
  | .remote src, ctx => fun h => by
    cases src with
    | error e =>
      exact ⟨e, by simp [Markdown.renderWithTracking, Markdown.renderContent]⟩
    | ok c => simp [hasFailingMaterialization] at h
  | .table headers rows, ctx => fun h => by simp [hasFailingMaterialization] at h
  | .tableRow values, ctx => fun h => by simp [hasFailingMaterialization] at h
  | .header c, ctx => fun h => by simp [hasFailingMaterialization] at h
  | .text s, ctx => fun h => by simp [hasFailingMaterialization] at h
  | .code s, ctx => fun h => by simp [hasFailingMaterialization] at h
  | .link t u, ctx => fun h => by simp [hasFailingMaterialization] at h
  | .codeBlock b c, ctx => fun h => by simp [hasFailingMaterialization] at h
  | .blockQuote s, ctx => fun h => by simp [hasFailingMaterialization] at h
  | .comment s, ctx => fun h => by simp [hasFailingMaterialization] at h
  | .executable sh cmd env, ctx => fun h => by simp [hasFailingMaterialization] at h

theorem md_error_of_failingList : ∀ (l : List Node) (ctx : ContextPath),
    hasFailingList l = true → ∃ e, Markdown.renderChildren l ctx = Except.error e
  | [], ctx => fun h => by simp [hasFailingList] at h
  | c :: rest, ctx => fun h => by
    cases hc : Markdown.renderWithTracking c ctx with
    | error e => exact ⟨e, by simp [Markdown.renderChildren, hc, Bind.bind, Except.bind]⟩
    | ok s =>
      cases hcf : hasFailingMaterialization c with
      | true =>
        obtain ⟨e, he⟩ := md_error_of_failing c ctx hcf
        rw [he] at hc
        cases hc
      | false =>
        have hrest : hasFailingList rest = true := by
          have hh := h
          simp [hasFailingList, hcf] at hh
          exact hh
        obtain ⟨e, he⟩ := md_error_of_failingList rest ctx hrest
        exact ⟨e, by simp [Markdown.renderChildren, hc, he, Bind.bind, Except.bind]⟩

end

/-- C7 counterexample: on a document holding a remote whose read fails, the
Markdown renderer surfaces the failure but the Execution Planner succeeds
with an empty plan list — it never materializes non-executable content. -/
theorem materialization_error_counterexample :
    Markdown.render (Node.document "D" none [Node.remote (Except.error "read failed")]) =
      Except.error "read failed" ∧
    Executioner.render (Node.document "D" none [Node.remote (Except.error "read failed")]) =
      Except.ok [] := ⟨by rfl, by rfl⟩

/-- C7 (amended): for every tree containing a content node whose
materialization fails, the Markdown renderer's Render returns an error, while
the Execution Planner's Render still succeeds (it materializes only
executables, which cannot fail, and discards child errors). -/
theorem markdown_propagates_materialization_errors (n : Node)
    (h : hasFailingMaterialization n = true) :
    (∃ e, Markdown.render n = Except.error e) ∧
    (∃ plans, Executioner.render n = Except.ok plans) := by
  constructor
  · obtain ⟨e, he⟩ := md_error_of_failing n [] h
    exact ⟨e, by simp [Markdown.render, he]⟩
  · refine ⟨plansSpec n [], ?_⟩
    unfold Executioner.render
    rw [execRenderWithTracking_eq n []]

/-- Witness for the amended C7 at a section with one failing remote. -/
theorem markdown_propagates_witness :
    (∃ e, Markdown.render (Node.sectionNode "S" [Node.remote (Except.error "boom")]) =
      Except.error e) ∧
    (∃ plans, Executioner.render (Node.sectionNode "S" [Node.remote (Except.error "boom")]) =
      Except.ok plans) :=
  markdown_propagates_materialization_errors
    (Node.sectionNode "S" [Node.remote (Except.error "boom")]) (by rfl)

/-! ## Claim C9: Add* and Create*/Write* leave the same tree -/

theorem getD_append_singleton {α : Type} (l : List α) (a d : α) :
    (l ++ [a]).getD l.length d = a := by
  induction l with
  | nil => rfl
  | cons x xs ih => simp [ih]

theorem set_append_singleton {α : Type} (l : List α) (a b : α) :
    (l ++ [a]).set l.length b = l ++ [b] := by
  induction l with
  | nil => rfl
  | cons x xs ih => simp [List.set, ih]

/-- C9: for each authoring pair, building the child first and passing it to
`Add*` yields the same container as inserting an empty child with
`Create*`/`Write*` and mutating it through the returned handle — the same
children in the same order — so rendering and planning agree as well. -/
theorem authoring_styles_equivalent (s : Sect) (d : Document) (name : String)
    (fs : Sect → Sect) (fp fq : Paragraph → Paragraph) (ft : Table → Table)
    (fl : GoList → GoList) (headers : List String) (listType : ListTypeE) :
    ((s.createSection name).1.mutateAt (s.createSection name).2 (liftSect fs) =
      s.addSection (fs (NewSection name))) ∧
    ((s.createTable headers).1.mutateAt (s.createTable headers).2 (liftTable ft) =
      s.addTable (ft ⟨headers, []⟩).headers (ft ⟨headers, []⟩).items) ∧
    ((s.createList listType).1.mutateAt (s.createList listType).2 (liftList fl) =
      s.addList (fl ⟨listType, []⟩).typeOfList (fl ⟨listType, []⟩).items) ∧
    (s.writeParagraph.1.mutateAt s.writeParagraph.2 (liftParagraph fp) =
      s.addParagraph (fp NewParagraph)) ∧
    (s.writeIntro.1.mutateAt s.writeIntro.2 (liftParagraph fq) =
      s.addIntro (fq NewParagraph)) ∧
    ((d.createSection name).1.mutateAt (d.createSection name).2 (liftSect fs) =
      d.addSection (fs (NewSection name))) ∧
    (d.writeIntro.1.mutateAt d.writeIntro.2 (liftParagraph fq) =
      d.addIntro (fq NewParagraph)) ∧
    Markdown.render
        (((s.createSection name).1.mutateAt (s.createSection name).2 (liftSect fs)).toNode) =
      Markdown.render ((s.addSection (fs (NewSection name))).toNode) ∧
    Executioner.render
        (((s.createSection name).1.mutateAt (s.createSection name).2 (liftSect fs)).toNode) =
      Executioner.render ((s.addSection (fs (NewSection name))).toNode) := by
  have h1 : (s.createSection name).1.mutateAt (s.createSection name).2 (liftSect fs) =
      s.addSection (fs (NewSection name)) := by
    simp [Sect.createSection, Sect.mutateAt, Sect.addSection, getD_append_singleton,
      set_append_singleton, liftSect, Sect.toNode, NewSection]
  refine ⟨h1, ?_, ?_, ?_, ?_, ?_, ?_, by rw [h1], by rw [h1]⟩
  · simp [Sect.createTable, Sect.mutateAt, Sect.addTable, getD_append_singleton,
      set_append_singleton, liftTable, Table.toNode]
  · simp [Sect.createList, Sect.mutateAt, Sect.addList, getD_append_singleton,
      set_append_singleton, liftList, GoList.toNode, textItems]
  · simp [Sect.writeParagraph, Sect.mutateAt, Sect.addParagraph, getD_append_singleton,
      set_append_singleton, liftParagraph, Paragraph.toNode, NewParagraph]
  · simp [Sect.writeIntro, Sect.mutateAt, Sect.addIntro, liftParagraph,
      Paragraph.toNode, NewParagraph]
  · simp [Document.createSection, Document.mutateAt, Document.addSection,
      getD_append_singleton, set_append_singleton, liftSect, Sect.toNode, NewSection]
  · simp [Document.writeIntro, Document.mutateAt, Document.addIntro, liftParagraph,
      Paragraph.toNode, NewParagraph]

/-! ## Claim C10: executables inside lists get an empty context name -/

theorem current_push (ctx : ContextPath) (name : String) :
    ContextPath.current (ContextPath.push ctx name) = ⟨name, ctx.length + 1⟩ := by
  unfold ContextPath.current ContextPath.push
  simp [List.getLast?_concat]

theorem mem_plansSpecList {p : CommandPlan} {n : Node} (l : List Node) (ctx : ContextPath)
    (hn : n ∈ l) (hp : p ∈ plansSpec n ctx) : p ∈ plansSpecList l ctx := by
  induction l with
  | nil => cases hn
  | cons c rest ih =>
    cases hn with
    | head =>
      simp only [plansSpecList, List.mem_append]
      exact Or.inl hp
    | tail _ h =>
      simp only [plansSpecList, List.mem_append]
      exact Or.inr (ih h)

/-- C10: an executable sitting directly in a list contributes a plan whose
context name is the list's empty identifier and whose level is one above the
enclosing context's level (for every push-built context, where the stored
level equals the path length); the planner computes exactly these plans; and
`PlanScriptExecution` with a non-empty section name only returns plans whose
context name equals that name, hence never one of these. -/
theorem list_executables_have_empty_context (t : ListTypeE) (items : List Node)
    (ctx : ContextPath) (sh : String) (cmd envs : List String)
    (d : Document) (sectionName : String) (plans : List CommandPlan)
    (hmem : Node.executable sh cmd envs ∈ items)
    (hlev : (ContextPath.current ctx).level = ctx.length)
    (hname : sectionName ≠ "") :
    (CommandPlan.mk sh cmd ⟨"", (ContextPath.current ctx).level + 1⟩ envs ∈
      plansSpec (Node.listNode t items) ctx) ∧
    Executioner.renderWithTracking (Node.listNode t items) ctx =
      Except.ok (plansSpec (Node.listNode t items) ctx) ∧
    (Service.planScriptExecution d sectionName = Except.ok plans →
      ∀ p ∈ plans, p.context.name ≠ "") := by
  refine ⟨?_, execRenderWithTracking_eq _ ctx, ?_⟩
  · rw [hlev]
    simp only [plansSpec]
    refine mem_plansSpecList items (ContextPath.push ctx "") hmem ?_
    simp [plansSpec, current_push]
  · intro hok p hp
    simp only [Service.planScriptExecution, execRender_eq] at hok
    rw [if_neg hname] at hok
    by_cases hz : ((plansSpec d.toNode []).filter
        (fun commandPlan => commandPlan.context.name == sectionName)).length = 0
    · rw [if_pos hz] at hok; cases hok
    · rw [if_neg hz] at hok
      injection hok with hok
      subst hok
      have hpn : p.context.name = sectionName := by
        simpa using (List.mem_filter.mp hp).2
      rw [hpn]; exact hname

/-- Witness for C10: a bulleted list holding one executable under a section
context of level 1, and a concrete plan query for section "S". -/
theorem list_exec_context_witness :
    (CommandPlan.mk "bash" ["echo"] ⟨"", 2⟩ [] ∈
      plansSpec (Node.listNode ListTypeE.bullet [Node.executable "bash" ["echo"] []])
        [⟨"S", 1⟩]) ∧
    Executioner.renderWithTracking
        (Node.listNode ListTypeE.bullet [Node.executable "bash" ["echo"] []]) [⟨"S", 1⟩] =
      Except.ok (plansSpec
        (Node.listNode ListTypeE.bullet [Node.executable "bash" ["echo"] []]) [⟨"S", 1⟩]) ∧
    (Service.planScriptExecution
        ⟨"D", none, [Node.sectionNode "S" [Node.executable "bash" ["echo", "x"] []]]⟩ "S" =
        Except.ok [CommandPlan.mk "bash" ["echo", "x"] ⟨"S", 2⟩ []] →
      ∀ p ∈ [CommandPlan.mk "bash" ["echo", "x"] ⟨"S", 2⟩ []], p.context.name ≠ "") :=
  list_executables_have_empty_context ListTypeE.bullet
    [Node.executable "bash" ["echo"] []] [⟨"S", 1⟩] "bash" ["echo"] []
    ⟨"D", none, [Node.sectionNode "S" [Node.executable "bash" ["echo", "x"] []]]⟩ "S"
    [CommandPlan.mk "bash" ["echo", "x"] ⟨"S", 2⟩ []]
    (List.mem_cons_self _ _) (by rfl) (by decide)

end DoYouCompute
